import Mathlib

/-!
Verification of the conformer-generation core of ssBind
(`ssBind/generator/AbstractConformerGenerator.py`, `ssBind/io.py`)
against its natural-language specification.

The Python code is shallowly embedded: 3D points carry rational
coordinates, the RDKit toolkit calls that the code composes are either
passed in as function parameters (substructure matches, embedding,
alignment) or modelled by their documented option records, and each
method of `AbstractConformerGenerator` becomes a Lean function that
mirrors the source line by line.
-/

namespace SSBind

/-- A 3D point with rational coordinates, standing for an RDKit
`Point3D` (an atom position in a conformer). -/
structure Point where
  x : ℚ
  y : ℚ
  z : ℚ
deriving DecidableEq

instance : Inhabited Point := ⟨⟨0, 0, 0⟩⟩

/-- Squared Euclidean distance between two points. -/
def sqDist (p q : Point) : ℚ :=
  (p.x - q.x) * (p.x - q.x) + (p.y - q.y) * (p.y - q.y) + (p.z - q.z) * (p.z - q.z)

/-- Embedding of the comparison `(a - b).Length() < distTol` from
`_MCS_AtomMap`, expressed on the squared length `s = |a - b|^2` to stay
in ℚ: for `s ≥ 0`, `sqrt s < tol` holds iff `0 < tol` and `s < tol^2`. -/
def lengthLt (s tol : ℚ) : Bool :=
  decide (0 < tol) && decide (s < tol * tol)

/-- One iteration of the inner loop body of `_MCS_AtomMap`: the list
`dist` of paired distances for the combination `(match_ref, match_lig)`
(built with `zip`, exactly as in the source) followed by the check
`all([d < distTol for d in dist])`.  `refPos`/`ligPos` give the 3D
position of each atom index in the single conformer of the reference
and the ligand (`GetConformer().GetAtomPosition`). -/
def matchOk (refPos ligPos : ℕ → Point) (tol : ℚ) (match_ref match_lig : List ℕ) : Bool :=
  ((match_ref.zip match_lig).map fun p => sqDist (refPos p.1) (ligPos p.2)).all
    fun s => lengthLt s tol

/-- Embedding of the double loop of `_MCS_AtomMap`
(`AbstractConformerGenerator.py` lines 45-59).  The toolkit-produced
match enumerations `matches_ref = ref.GetSubstructMatches(submol,
uniquify=False)` and `matches_lig = ligand.GetSubstructMatches(submol,
uniquify=False)` are taken as parameters; the reference matches run in
the outer loop.  `some pairs` is the `return list(zip(*keepMatches))`
for the first accepted combination, `none` is the final
`raise Exception("ERROR: No MCS found!")`. -/
def MCS_AtomMap (refPos ligPos : ℕ → Point) (tol : ℚ)
    (matches_ref matches_lig : List (List ℕ)) : Option (List (ℕ × ℕ)) :=
  match matches_ref with
  | [] => none
  | match_ref :: rest =>
    match matches_lig.find? (fun match_lig => matchOk refPos ligPos tol match_ref match_lig) with
    | some match_lig => some (match_ref.zip match_lig)
    | none => MCS_AtomMap refPos ligPos tol rest matches_lig

/-- The two mappings stored by `AbstractConformerGenerator.__init__`. -/
structure Generator where
  mappingRefToLig : List (ℕ × ℕ)
  mappingLigToRef : List (ℕ × ℕ)
deriving DecidableEq

/-- Embedding of the mapping construction in
`AbstractConformerGenerator.__init__` (lines 27-30):
`_mappingRefToLig = _MCS_AtomMap(query_molecule, reference_substructure,
distTol)` and `_mappingLigToRef = [(j, i) for i, j in _mappingRefToLig]`.
`none` means construction aborted with the exception from
`_MCS_AtomMap`. -/
def mkGenerator (refPos ligPos : ℕ → Point) (distTol : ℚ)
    (matches_ref matches_lig : List (List ℕ)) : Option Generator :=
  (MCS_AtomMap refPos ligPos distTol matches_ref matches_lig).map
    fun m => { mappingRefToLig := m, mappingLigToRef := m.map fun p => (p.2, p.1) }

/-- Atom comparison options of RDKit `rdFMCS.FindMCS`. -/
inductive AtomCompare where
  | CompareAny
  | CompareAnyHeavyAtom
  | CompareElements
  | CompareIsotopes
deriving DecidableEq

/-- Bond comparison options of RDKit `rdFMCS.FindMCS`.  `CompareAny` is
the one option under which bonds of different orders match; the default
`CompareOrder` requires equal bond orders. -/
inductive BondCompare where
  | CompareAny
  | CompareOrder
  | CompareOrderExact
deriving DecidableEq

/-- The keyword options of `rdFMCS.FindMCS` that govern matching. -/
structure MCSParams where
  maximizeBonds : Bool
  matchValences : Bool
  ringMatchesRingOnly : Bool
  completeRingsOnly : Bool
  matchChiralTag : Bool
  atomCompare : AtomCompare
  bondCompare : BondCompare
deriving DecidableEq

/-- Documented defaults of `rdFMCS.FindMCS` (RDKit):
`maximizeBonds=True, matchValences=False, ringMatchesRingOnly=False,
completeRingsOnly=False, matchChiralTag=False,
atomCompare=CompareElements, bondCompare=CompareOrder`. -/
def rdFMCSDefaults : MCSParams where
  maximizeBonds := true
  matchValences := false
  ringMatchesRingOnly := false
  completeRingsOnly := false
  matchChiralTag := false
  atomCompare := AtomCompare.CompareElements
  bondCompare := BondCompare.CompareOrder

/-- The effective option record of the call
`rdFMCS.FindMCS([ligand, ref], completeRingsOnly=True,
matchValences=False)` in `_MCS_AtomMap` (line 39): only
`completeRingsOnly` and `matchValences` are passed, every other option
keeps its default. -/
def findMCSCallParams : MCSParams :=
  { rdFMCSDefaults with completeRingsOnly := true, matchValences := false }

/-- Bond-order matching is relaxed (a topology-only match, in which
atoms connected by bonds of different orders still match) exactly when
the bond comparator is `CompareAny`. -/
def bondOrderRelaxed (p : MCSParams) : Bool :=
  p.bondCompare = BondCompare.CompareAny

/-- Embedding of the minimization loop of `_minimize` (lines 78-80):

    maxIters = 10
    while ff.Minimize(maxIts=4) and maxIters > 0:
        maxIters -= 1

`step k` is the truth value of the `k`-th call `ff.Minimize(maxIts=4)`
(`true` when it returns nonzero, i.e. not yet converged).  The value of
`minimizeLoop step k budget` is the number of `Minimize` calls made
when the loop condition is first evaluated with `maxIters = budget`:
the condition always performs one call, and only when that call
reports non-convergence and the budget is positive does the loop
continue with the budget decremented. -/
def minimizeLoop (step : ℕ → Bool) (k : ℕ) : ℕ → ℕ
  | 0 => 1
  | budget + 1 => if step k then 1 + minimizeLoop step (k + 1) budget else 1

/-- Total number of force-field `Minimize(maxIts=4)` calls made by
`_minimize` for a given sequence of convergence reports: the loop
starts with `maxIters = 10`. -/
def minimizeCalls (step : ℕ → Bool) : ℕ :=
  minimizeLoop step 0 10

/-- The `maxIts` argument of every `ff.Minimize` call in `_minimize`. -/
def maxItsPerCall : ℕ := 4

/-- A positional restraint added by
`ff.UFFAddPositionConstraint(atidx, 0, 200)`: atom index, maximum
displacement (allowed radius) and force constant (weight). -/
structure PositionConstraint where
  atidx : ℕ
  maxDispl : ℚ
  forceConstant : ℚ
deriving DecidableEq

/-- The atom indices restrained by `_minimize` (lines 76-77):
`[i for i, j in self._mappingRefToLig]`, i.e. the FIRST component of
every pair of the reference-to-ligand mapping. -/
def restrainedAtomIndices (mappingRefToLig : List (ℕ × ℕ)) : List ℕ :=
  mappingRefToLig.map fun p => p.1

/-- The matched ligand atom indices: the SECOND component of every pair
of the reference-to-ligand mapping (this is what `_embed`, line 64,
iterates over with `for _, ligIdx in self._mappingRefToLig`). -/
def matchedLigandIndices (mappingRefToLig : List (ℕ × ℕ)) : List ℕ :=
  mappingRefToLig.map fun p => p.2

/-- The per-atom restraints produced by the loop in `_minimize`:
`for atidx in [i for i, j in self._mappingRefToLig]:
    ff.UFFAddPositionConstraint(atidx, 0, 200)`. -/
def minimizeConstraints (mappingRefToLig : List (ℕ × ℕ)) : List PositionConstraint :=
  (restrainedAtomIndices mappingRefToLig).map fun a => ⟨a, 0, 200⟩

/-- A molecule value: an abstract topology tag (atoms, bonds,
properties) together with the coordinate list of its single conformer
(`GetConformer(0)`). -/
structure Mol where
  topo : ℕ
  coords : List Point
deriving DecidableEq

/-- The coordinate map built by `_embed` (lines 62-66): for every
matched ligand atom index, the atom's current position in the ligand's
existing conformer. -/
def buildCoordMap (g : Generator) (ligand : Mol) : List (ℕ × Point) :=
  g.mappingRefToLig.map fun p => (p.2, ligand.coords.getD p.2 default)

/-- Outcome of an `EmbedMolecule` call: the state of the molecule after
the call, and the integer return code (the new conformer id, `-1` on
failure). -/
structure EmbedOutcome where
  result : Mol
  retCode : Int
deriving DecidableEq

/-- Embedding of `_embed` (lines 61-71), with the toolkit primitives
passed as functions.  `EmbedMoleculeF m coordMap seed` is RDKit
`EmbedMolecule`, `alignF` is the `AllChem.AlignMol` call made by
`_alignToRef`.  The source discards the return code of
`EmbedMolecule`, calls `_alignToRef` on the copy unconditionally, and
returns the copy; the deep copy is value-level here (object identity is
treated separately in the heap model below). -/
def embedBody (g : Generator) (EmbedMoleculeF : Mol → List (ℕ × Point) → Int → EmbedOutcome)
    (alignF : Mol → Mol) (ligand : Mol) (seed : Int) : Mol :=
  let coordMap := buildCoordMap g ligand
  let l_embed := ligand
  let out := EmbedMoleculeF l_embed coordMap seed
  alignF out.result

/-- A heap of Python objects: molecule values addressed by object id,
with a bound `next` above every id allocated so far. -/
structure Heap where
  mem : ℕ → Mol
  next : ℕ

/-- `copy.deepcopy`: allocate a fresh object id holding a copy of the
value at `src`; the fresh id is the old `next`. -/
def deepcopyAlloc (h : Heap) (src : ℕ) : Heap × ℕ :=
  (⟨fun i => if i = h.next then h.mem src else h.mem i, h.next + 1⟩, h.next)

/-- In-place mutation of the object stored at `id` (what RDKit
`EmbedMolecule` and `AlignMol` do to the molecule they are handed). -/
def mutateAt (h : Heap) (id : ℕ) (f : Mol → Mol) : Heap :=
  ⟨fun i => if i = id then f (h.mem i) else h.mem i, h.next⟩

/-- Heap-level embedding of `_embed`: read the coordinate map from the
caller's ligand object, `deepcopy` it, then let `EmbedMolecule` and
`_alignToRef` mutate the copy in place; return the final heap and the
id of the copy (the returned object). -/
def embedHeapOp (EmbedMoleculeF : Mol → List (ℕ × Point) → Int → Mol)
    (alignF : Mol → Mol) (g : Generator) (h : Heap) (lig : ℕ) (seed : Int) : Heap × ℕ :=
  let coordMap := buildCoordMap g (h.mem lig)
  let hc := deepcopyAlloc h lig
  let h2 := mutateAt hc.1 hc.2 fun m => EmbedMoleculeF m coordMap seed
  let h3 := mutateAt h2 hc.2 alignF
  (h3, hc.2)

/-- Modelled from the spec: the rigid alignment performed by RDKit
`AllChem.AlignMol` (called by `_alignToRef`, lines 85-88) is library
code outside this repository.  Following §4.4 of the spec, it is a
deterministic least-squares rigid fit: the toolkit picks, from a set
`G` of rigid transforms closed under composition and containing the
identity, a transform minimizing the alignment cost of the conformer's
coordinates, and applies it in place; for a non-degenerate
correspondence the minimizing transform's result is unique. -/
structure RigidAlignModel (G : Type) where
  e : G
  comp : G → G → G
  act : G → List Point → List Point
  cost : List Point → ℚ
  opt : List Point → G
  act_e : ∀ x, act e x = x
  act_comp : ∀ g h x, act (comp g h) x = act g (act h x)
  opt_min : ∀ x g, cost (act (opt x) x) ≤ cost (act g x)
  opt_unique : ∀ x g, cost (act g x) = cost (act (opt x) x) → act g x = act (opt x) x

/-- Embedding of `_alignToRef`: apply the toolkit's chosen optimal
rigid transform to the conformer coordinates; the topology is
untouched. -/
def alignToRefM {G : Type} (M : RigidAlignModel G) (m : Mol) : Mol :=
  ⟨m.topo, M.act (M.opt m.coords) m.coords⟩

/-- Result of one RDKit file parser call in `MolFromInput`: either a
normal return (`MolFromMolFile` and friends return `None` on a parse
failure) or a raised `RuntimeError`. -/
inductive POut where
  | ok (m : Option Mol)
  | rerr
deriving DecidableEq

/-- The three distinct RDKit reader functions used by `MolFromInput`. -/
structure Readers where
  MolFromMolFile : String → POut
  MolFromMol2File : String → POut
  MolFromPDBFile : String → POut

/-- The `FILE_PARSERS` dictionary of `MolFromInput` (`io.py` lines
27-32), as an association list in insertion order:
mol, mol2, pdb, sdf (sdf reuses `MolFromMolFile`). -/
def FILE_PARSERS (P : Readers) : List (String × (String → POut)) :=
  [("mol", P.MolFromMolFile), ("mol2", P.MolFromMol2File),
   ("pdb", P.MolFromPDBFile), ("sdf", P.MolFromMolFile)]

/-- Observable outcome of `MolFromInput`. -/
inductive MFI where
  | systemExit
  | typeError
  | runtimeErr
  | ret (m : Option Mol)
deriving DecidableEq

/-- The fallback loop of `MolFromInput` (lines 52-58): try every
reader in dictionary-value order, return the first non-`None` molecule,
swallow `RuntimeError`, and raise `TypeError` if no reader succeeds. -/
def fallbackRead (path : String) : List (String → POut) → MFI
  | [] => MFI.typeError
  | r :: rs =>
    match r path with
    | POut.ok (some m) => MFI.ret (some m)
    | POut.ok none => fallbackRead path rs
    | POut.rerr => fallbackRead path rs

/-- Embedding of `MolFromInput` (`io.py` lines 16-64).  `isfile` is the
result of `os.path.isfile(molecule)`; `ext` is the already computed
`os.path.splitext(molecule)[1][1:].lower()`.  A non-empty extension is
looked up in `FILE_PARSERS`; a `KeyError` becomes `TypeError`; a
recognized reader's return value is returned as is (possibly `None`),
and a `RuntimeError` it raises propagates uncaught.  An empty extension
goes to the fallback loop. -/
def MolFromInput (P : Readers) (isfile : Bool) (ext path : String) : MFI :=
  if isfile = false then
    MFI.systemExit
  else if ext ≠ "" then
    match (FILE_PARSERS P).lookup ext with
    | none => MFI.typeError
    | some reader =>
      match reader path with
      | POut.ok m => MFI.ret m
      | POut.rerr => MFI.runtimeErr
  else
    fallbackRead path ((FILE_PARSERS P).map fun p => p.2)

/-! Concrete instances used by the witness theorems. -/

/-- Reference conformer positions of a two-atom example: atom 0 at the
origin, atom 1 at `(5,0,0)`. -/
def refPosW : ℕ → Point := fun i => if i = 0 then ⟨0, 0, 0⟩ else ⟨5, 0, 0⟩

/-- Ligand conformer positions of the example: every atom at
`(5,0,0)`, so only reference atom 1 is within distance 1 of it. -/
def ligPosW : ℕ → Point := fun _ => ⟨5, 0, 0⟩

/-- A convergence-report sequence for the minimizer example: the first
three `Minimize` calls report non-convergence, the fourth converges. -/
def stepW : ℕ → Bool := fun i => decide (i < 3)

/-- A concrete molecule value. -/
def molW : Mol := ⟨7, [⟨1, 2, 3⟩, ⟨4, 5, 6⟩]⟩

/-- A concrete generator whose correspondence matches atom 0 to atom 0. -/
def genW : Generator := ⟨[(0, 0)], [(0, 0)]⟩

/-- A one-object heap holding `molW` at id 0. -/
def heapW : Heap := ⟨fun _ => molW, 1⟩

/-- Shift a point along the x axis. -/
def shiftX (g : ℚ) (p : Point) : Point := ⟨p.x + g, p.y, p.z⟩

/-- A concrete instance of the rigid-alignment contract: the transform
group is translation along the x axis, the cost is the squared x
coordinate of the first matched atom, and the optimizer translates that
atom onto the origin.  It satisfies all four contract laws. -/
def TransModel : RigidAlignModel ℚ where
  e := 0
  comp := fun g h => g + h
  act := fun g pts => pts.map (shiftX g)
  cost := fun pts => (pts.headD default).x * (pts.headD default).x
  opt := fun pts => -(pts.headD default).x
  act_e := by
    intro x
    dsimp only
    have h : shiftX 0 = id := by
      funext p
      cases p
      simp [shiftX]
    rw [h, List.map_id]
  act_comp := by
    intro g h x
    dsimp only
    rw [List.map_map]
    have hc : shiftX g ∘ shiftX h = shiftX (g + h) := by
      funext p
      cases p
      simp [shiftX, Function.comp]
      ring
    rw [hc]
  opt_min := by
    intro x g
    cases x with
    | nil => exact le_of_eq rfl
    | cons p tl =>
      show (shiftX (-p.x) p).x * (shiftX (-p.x) p).x ≤ (shiftX g p).x * (shiftX g p).x
      have h0 : (shiftX (-p.x) p).x = 0 := by
        show p.x + -p.x = 0
        ring
      rw [h0, mul_zero]
      exact mul_self_nonneg _
  opt_unique := by
    intro x g hx
    cases x with
    | nil => rfl
    | cons p tl =>
      have hh : (shiftX g p).x * (shiftX g p).x
          = (shiftX (-p.x) p).x * (shiftX (-p.x) p).x := hx
      have h0 : (shiftX (-p.x) p).x = 0 := by
        show p.x + -p.x = 0
        ring
      rw [h0, mul_zero] at hh
      have hg : (shiftX g p).x = 0 := mul_self_eq_zero.mp hh
      have hg2 : g = -p.x := by
        have hpg : p.x + g = 0 := hg
        linarith
      rw [hg2]
      rfl

/-- Readers that all return `None` (a parse failure that RDKit reports
by returning `None` rather than raising). -/
def readersW : Readers :=
  ⟨fun _ => POut.ok none, fun _ => POut.ok none, fun _ => POut.ok none⟩

/-! Helper lemmas. -/

/-- An element returned by `List.find?` satisfies the predicate and is
the first element of the list to do so. -/
theorem find?_first_split {α : Type} (p : α → Bool) (l : List α) (a : α)
    (h : l.find? p = some a) :
    p a = true ∧ ∃ pre suf, l = pre ++ a :: suf ∧ ∀ x ∈ pre, p x = false := by
  induction l with
  | nil => simp [List.find?] at h
  | cons b l ih =>
    cases hb : p b with
    | true =>
      rw [List.find?_cons_of_pos _ hb] at h
      cases h
      exact ⟨hb, [], l, rfl, by simp⟩
    | false =>
      rw [List.find?_cons_of_neg _ (by simp [hb])] at h
      obtain ⟨hpa, pre, suf, hl, hpre⟩ := ih h
      refine ⟨hpa, b :: pre, suf, by rw [hl]; rfl, ?_⟩
      intro x hx
      rcases List.mem_cons.mp hx with rfl | hx'
      · exact hb
      · exact hpre x hx'

/-- Unfolding equation of `MCS_AtomMap` for a nonempty outer match
list. -/
theorem MCS_AtomMap_cons (refPos ligPos : ℕ → Point) (tol : ℚ)
    (mr : List ℕ) (rest mls : List (List ℕ)) :
    MCS_AtomMap refPos ligPos tol (mr :: rest) mls =
      match mls.find? (fun match_lig => matchOk refPos ligPos tol mr match_lig) with
      | some match_lig => some (mr.zip match_lig)
      | none => MCS_AtomMap refPos ligPos tol rest mls := rfl

/-- Characterization of a successful `_MCS_AtomMap` run: the returned
pairing comes from the first (outer loop on reference matches, inner
loop on ligand matches) combination passing the distance check. -/
theorem MCS_AtomMap_some_split (refPos ligPos : ℕ → Point) (tol : ℚ)
    (mrs mls : List (List ℕ)) (pairs : List (ℕ × ℕ))
    (h : MCS_AtomMap refPos ligPos tol mrs mls = some pairs) :
    ∃ pre mr suf pre2 ml suf2,
      mrs = pre ++ mr :: suf ∧ mls = pre2 ++ ml :: suf2 ∧
      matchOk refPos ligPos tol mr ml = true ∧
      (∀ mr' ∈ pre, ∀ ml' ∈ mls, matchOk refPos ligPos tol mr' ml' = false) ∧
      (∀ ml' ∈ pre2, matchOk refPos ligPos tol mr ml' = false) ∧
      pairs = mr.zip ml := by
  induction mrs with
  | nil => simp [MCS_AtomMap] at h
  | cons mr rest ih =>
    cases hf : mls.find? (fun match_lig => matchOk refPos ligPos tol mr match_lig) with
    | some ml =>
      have hres : MCS_AtomMap refPos ligPos tol (mr :: rest) mls = some (mr.zip ml) := by
        rw [MCS_AtomMap_cons, hf]
      rw [hres] at h
      have hp : mr.zip ml = pairs := by injection h
      obtain ⟨hok, pre2, suf2, hmls, hpre2⟩ := find?_first_split _ _ _ hf
      exact ⟨[], mr, rest, pre2, ml, suf2, rfl, hmls, hok, by simp, hpre2, hp.symm⟩
    | none =>
      have hres : MCS_AtomMap refPos ligPos tol (mr :: rest) mls
          = MCS_AtomMap refPos ligPos tol rest mls := by
        rw [MCS_AtomMap_cons, hf]
      rw [hres] at h
      obtain ⟨pre, mr', suf, pre2, ml, suf2, hmrs, hmls, hok, hpre, hpre2, hpairs⟩ := ih h
      refine ⟨mr :: pre, mr', suf, pre2, ml, suf2, by rw [hmrs]; rfl, hmls, hok, ?_, hpre2, hpairs⟩
      intro x hx ml' hml'
      rcases List.mem_cons.mp hx with rfl | hx'
      · simpa using List.find?_eq_none.mp hf ml' hml'
      · exact hpre x hx' ml' hml'

/-- `_MCS_AtomMap` reaches its final `raise` exactly when no
combination of a reference match and a ligand match passes the
distance check. -/
theorem MCS_AtomMap_eq_none_iff (refPos ligPos : ℕ → Point) (tol : ℚ)
    (mrs mls : List (List ℕ)) :
    MCS_AtomMap refPos ligPos tol mrs mls = none ↔
      ∀ mr ∈ mrs, ∀ ml ∈ mls, matchOk refPos ligPos tol mr ml = false := by
  induction mrs with
  | nil => simp [MCS_AtomMap]
  | cons mr rest ih =>
    cases hf : mls.find? (fun match_lig => matchOk refPos ligPos tol mr match_lig) with
    | some ml =>
      have hres : MCS_AtomMap refPos ligPos tol (mr :: rest) mls = some (mr.zip ml) := by
        rw [MCS_AtomMap_cons, hf]
      rw [hres]
      constructor
      · intro h
        exact absurd h (by simp)
      · intro h
        have h1 := h mr (by simp) ml (List.mem_of_find?_eq_some hf)
        have h2 := List.find?_some hf
        rw [h1] at h2
        exact absurd h2 (by simp)
    | none =>
      have hres : MCS_AtomMap refPos ligPos tol (mr :: rest) mls
          = MCS_AtomMap refPos ligPos tol rest mls := by
        rw [MCS_AtomMap_cons, hf]
      rw [hres, ih]
      constructor
      · intro h mr' hmr' ml' hml'
        rcases List.mem_cons.mp hmr' with rfl | hmr''
        · simpa using List.find?_eq_none.mp hf ml' hml'
        · exact h mr' hmr'' ml' hml'
      · intro h mr' hmr' ml' hml'
        exact h mr' (List.mem_cons_of_mem _ hmr') ml' hml'

/-- The distance acceptance test is monotone in the tolerance. -/
theorem lengthLt_mono (s t1 t2 : ℚ) (hle : t1 ≤ t2) (h : lengthLt s t1 = true) :
    lengthLt s t2 = true := by
  unfold lengthLt at h ⊢
  simp only [Bool.and_eq_true, decide_eq_true_eq] at h ⊢
  obtain ⟨h0, hs⟩ := h
  refine ⟨lt_of_lt_of_le h0 hle, lt_of_lt_of_le hs ?_⟩
  exact mul_le_mul hle hle (le_of_lt h0) (le_trans (le_of_lt h0) hle)

/-- Whole-combination acceptance is monotone in the tolerance. -/
theorem matchOk_mono (refPos ligPos : ℕ → Point) (t1 t2 : ℚ) (mr ml : List ℕ)
    (hle : t1 ≤ t2) (h : matchOk refPos ligPos t1 mr ml = true) :
    matchOk refPos ligPos t2 mr ml = true := by
  unfold matchOk at h ⊢
  rw [List.all_eq_true] at h ⊢
  intro s hs
  simpa using lengthLt_mono s t1 t2 hle (by simpa using h s hs)

/-! Claim theorems. -/

/-- C1: for every ligand and reference molecule (each with a 3D
conformer), the Atom Correspondence Builder accepts the first
combination of one reference substructure match and one ligand
substructure match — in enumeration order, reference matches in the
outer loop — for which every paired Euclidean distance between
corresponding atom positions is strictly below `distTol`, and returns
that pairing as the `(reference_atom_index, ligand_atom_index)` list
together with its elementwise-swapped ligand-to-reference inverse. -/
theorem c1_first_match_accepted (refPos ligPos : ℕ → Point) (distTol : ℚ)
    (matches_ref matches_lig : List (List ℕ)) (g : Generator)
    (hg : mkGenerator refPos ligPos distTol matches_ref matches_lig = some g) :
    g.mappingLigToRef = g.mappingRefToLig.map (fun p => (p.2, p.1)) ∧
    ∃ pre mr suf pre2 ml suf2,
      matches_ref = pre ++ mr :: suf ∧ matches_lig = pre2 ++ ml :: suf2 ∧
      matchOk refPos ligPos distTol mr ml = true ∧
      (∀ mr' ∈ pre, ∀ ml' ∈ matches_lig, matchOk refPos ligPos distTol mr' ml' = false) ∧
      (∀ ml' ∈ pre2, matchOk refPos ligPos distTol mr ml' = false) ∧
      g.mappingRefToLig = mr.zip ml := by
  unfold mkGenerator at hg
  cases hm : MCS_AtomMap refPos ligPos distTol matches_ref matches_lig with
  | none =>
    rw [hm] at hg
    exact absurd hg (by simp)
  | some pairs =>
    rw [hm] at hg
    have hg' : some (⟨pairs, pairs.map (fun p => (p.2, p.1))⟩ : Generator) = some g := hg
    have hgg : (⟨pairs, pairs.map (fun p => (p.2, p.1))⟩ : Generator) = g := by
      injection hg'
    obtain ⟨pre, mr, suf, pre2, ml, suf2, h1, h2, h3, h4, h5, h6⟩ :=
      MCS_AtomMap_some_split _ _ _ _ _ _ hm
    subst hgg
    exact ⟨rfl, pre, mr, suf, pre2, ml, suf2, h1, h2, h3, h4, h5, by rw [h6]⟩

/-- Witness for C1 at a concrete input: reference matches `[0]` then
`[1]`, one ligand match `[0]`; the combination `([0],[0])` fails the
distance check (distance 5 at tolerance 1), so the accepted first
combination is `([1],[0])`, giving mapping `[(1,0)]` and inverse
`[(0,1)]`. -/
theorem c1_witness :
    mkGenerator refPosW ligPosW 1 [[0], [1]] [[0]] = some ⟨[(1, 0)], [(0, 1)]⟩ ∧
    ((⟨[(1, 0)], [(0, 1)]⟩ : Generator).mappingLigToRef
        = (⟨[(1, 0)], [(0, 1)]⟩ : Generator).mappingRefToLig.map (fun p => (p.2, p.1)) ∧
      ∃ pre mr suf pre2 ml suf2,
        [[0], [1]] = pre ++ mr :: suf ∧ [[0]] = pre2 ++ ml :: suf2 ∧
        matchOk refPosW ligPosW 1 mr ml = true ∧
        (∀ mr' ∈ pre, ∀ ml' ∈ [[0]], matchOk refPosW ligPosW 1 mr' ml' = false) ∧
        (∀ ml' ∈ pre2, matchOk refPosW ligPosW 1 mr ml' = false) ∧
        (⟨[(1, 0)], [(0, 1)]⟩ : Generator).mappingRefToLig = mr.zip ml) :=
  ⟨by norm_num [mkGenerator, MCS_AtomMap, matchOk, lengthLt, sqDist, refPosW, ligPosW,
      List.find?],
   c1_first_match_accepted refPosW ligPosW 1 [[0], [1]] [[0]] ⟨[(1, 0)], [(0, 1)]⟩
    (by norm_num [mkGenerator, MCS_AtomMap, matchOk, lengthLt, sqDist, refPosW, ligPosW,
      List.find?])⟩

/-- C2: if no combination of a reference match and a ligand match has
all paired distances strictly below the tolerance, `_MCS_AtomMap`
raises its exception and `__init__` aborts: no `Generator` is
constructed, and there is no retry path in the code. -/
theorem c2_no_match_aborts (refPos ligPos : ℕ → Point) (distTol : ℚ)
    (matches_ref matches_lig : List (List ℕ))
    (h : ∀ mr ∈ matches_ref, ∀ ml ∈ matches_lig,
      matchOk refPos ligPos distTol mr ml = false) :
    mkGenerator refPos ligPos distTol matches_ref matches_lig = none := by
  unfold mkGenerator
  rw [(MCS_AtomMap_eq_none_iff refPos ligPos distTol matches_ref matches_lig).mpr h]
  rfl

/-- Witness for C2: a single combination at distance 5 with tolerance
1 fails, so construction aborts. -/
theorem c2_witness :
    (∀ mr ∈ [[0]], ∀ ml ∈ [[0]], matchOk refPosW ligPosW 1 mr ml = false) ∧
    mkGenerator refPosW ligPosW 1 [[0]] [[0]] = none :=
  ⟨by
    intro mr hmr ml hml
    rw [List.mem_singleton] at hmr hml
    subst hmr
    subst hml
    norm_num [matchOk, lengthLt, sqDist, refPosW, ligPosW],
   c2_no_match_aborts refPosW ligPosW 1 [[0]] [[0]] (by
    intro mr hmr ml hml
    rw [List.mem_singleton] at hmr hml
    subst hmr
    subst hml
    norm_num [matchOk, lengthLt, sqDist, refPosW, ligPosW])⟩

/-- C3: tolerance monotonicity — for a fixed ligand and reference and
tolerances `t1 ≤ t2`, if construction fails (raises) at tolerance `t2`
then it also fails at tolerance `t1`: a smaller tolerance never
recovers a match a larger tolerance rejected. -/
theorem c3_tolerance_monotone (refPos ligPos : ℕ → Point) (t1 t2 : ℚ)
    (matches_ref matches_lig : List (List ℕ)) (hle : t1 ≤ t2)
    (h2 : mkGenerator refPos ligPos t2 matches_ref matches_lig = none) :
    mkGenerator refPos ligPos t1 matches_ref matches_lig = none := by
  unfold mkGenerator at h2 ⊢
  have h2' : MCS_AtomMap refPos ligPos t2 matches_ref matches_lig = none := by
    cases hm : MCS_AtomMap refPos ligPos t2 matches_ref matches_lig with
    | none => rfl
    | some p =>
      rw [hm] at h2
      exact absurd h2 (by simp)
  have hall := (MCS_AtomMap_eq_none_iff refPos ligPos t2 matches_ref matches_lig).mp h2'
  have hall1 : ∀ mr ∈ matches_ref, ∀ ml ∈ matches_lig,
      matchOk refPos ligPos t1 mr ml = false := by
    intro mr hmr ml hml
    cases hmo : matchOk refPos ligPos t1 mr ml with
    | false => rfl
    | true =>
      have hup := matchOk_mono refPos ligPos t1 t2 mr ml hle hmo
      rw [hall mr hmr ml hml] at hup
      exact absurd hup (by simp)
  rw [(MCS_AtomMap_eq_none_iff refPos ligPos t1 matches_ref matches_lig).mpr hall1]
  rfl

/-- Witness for C3: the example fails at tolerance 2 (distance is 5),
hence also at the smaller tolerance 1. -/
theorem c3_witness :
    (1 : ℚ) ≤ 2 ∧
    mkGenerator refPosW ligPosW 2 [[0]] [[0]] = none ∧
    mkGenerator refPosW ligPosW 1 [[0]] [[0]] = none :=
  ⟨by norm_num,
   by norm_num [mkGenerator, MCS_AtomMap, matchOk, lengthLt, sqDist, refPosW, ligPosW,
      List.find?],
   c3_tolerance_monotone refPosW ligPosW 1 2 [[0]] [[0]] (by norm_num)
    (by norm_num [mkGenerator, MCS_AtomMap, matchOk, lengthLt, sqDist, refPosW, ligPosW,
      List.find?])⟩

/-- C4 (code bug): `_embed` discards the return code of
`EmbedMolecule` (the source calls it as a bare statement, line 69), so
its result is identical whether the toolkit reports embedding failure
(`-1`) or success — no distinct embedding-failed condition is surfaced
to the caller; the aligned copy is returned unconditionally. -/
theorem c4_embed_ignores_return_code (g : Generator)
    (emb : Mol → List (ℕ × Point) → Int → EmbedOutcome) (alignF : Mol → Mol)
    (ligand : Mol) (seed : Int) :
    embedBody g (fun m cm s => ⟨(emb m cm s).result, -1⟩) alignF ligand seed
      = embedBody g (fun m cm s => ⟨(emb m cm s).result, 0⟩) alignF ligand seed := rfl

/-- C5 counterexample: the claim that the `FindMCS` call relaxes
bond-order matching is false — the call leaves `bondCompare` at its
default `CompareOrder`, which requires equal bond orders; only
`completeRingsOnly` and `matchValences` are set. -/
theorem c5_counterexample :
    ¬(findMCSCallParams.completeRingsOnly = true ∧
      bondOrderRelaxed findMCSCallParams = true ∧
      findMCSCallParams.matchValences = false) := by
  intro h
  exact absurd h.2.1 (by decide)

/-- C5 amended: the MCS is computed with ring-completeness enforced
(`completeRingsOnly=True`) and valence matching relaxed
(`matchValences=False`, its default anyway); bond-order comparison is
left at the toolkit default `CompareOrder`, so bond orders are matched,
not relaxed. -/
theorem c5_amended_mcs_options :
    findMCSCallParams.completeRingsOnly = true ∧
    findMCSCallParams.matchValences = false ∧
    findMCSCallParams.bondCompare = BondCompare.CompareOrder ∧
    bondOrderRelaxed findMCSCallParams = false := by decide

/-- An upper bound for the minimization loop: from a budget `b`, at
most `b + 1` `Minimize` calls are made. -/
theorem minimizeLoop_le (step : ℕ → Bool) (k b : ℕ) :
    minimizeLoop step k b ≤ b + 1 := by
  induction b generalizing k with
  | zero => exact le_refl 1
  | succ m ih =>
    cases hs : step k with
    | false => simp [minimizeLoop, hs]
    | true =>
      simp only [minimizeLoop, hs, if_true]
      have := ih (k + 1)
      omega

/-- Early stopping: if the first `j` `Minimize` calls report
non-convergence and call `j` (0-based) reports convergence, with `j`
within the budget, exactly `j + 1` calls are made. -/
theorem minimizeLoop_conv (step : ℕ → Bool) (j k b : ℕ) (hj : j ≤ b)
    (hbefore : ∀ i, i < j → step (k + i) = true) (hconv : step (k + j) = false) :
    minimizeLoop step k b = j + 1 := by
  induction j generalizing k b with
  | zero =>
    have hk : step k = false := by simpa using hconv
    cases b with
    | zero => rfl
    | succ m => simp [minimizeLoop, hk]
  | succ n ih =>
    cases b with
    | zero => omega
    | succ m =>
      have hs : step k = true := by simpa using hbefore 0 (Nat.succ_pos n)
      have hrec : minimizeLoop step (k + 1) m = n + 1 := by
        apply ih
        · omega
        · intro i hi
          have h' := hbefore (i + 1) (by omega)
          have he : k + (i + 1) = (k + 1) + i := by omega
          rw [he] at h'
          exact h'
        · have he : k + (n + 1) = (k + 1) + n := by omega
          rw [he] at hconv
          exact hconv
      simp only [minimizeLoop, hs, if_true, hrec]
      omega

/-- C6 counterexample: with a minimizer that never reports
convergence, `_minimize` makes 11 `Minimize(maxIts=4)` calls, not at
most 10 — the loop condition runs one call before the first budget
check, and the budget then allows 10 further calls. -/
theorem c6_counterexample :
    minimizeCalls (fun _ => true) = 11 ∧ ¬(minimizeCalls (fun _ => true) ≤ 10) := by
  constructor
  · rfl
  · intro h
    have : minimizeCalls (fun _ => true) = 11 := rfl
    omega

/-- C6 amended: minimization runs in fixed-size batches of
`maxItsPerCall = 4` iterations, at most 11 batches in total (one
initial call plus a budget of 10 repeats), it stops at the first batch
reporting convergence (if the `j`-th call, 0-based with `j ≤ 10`,
converges, exactly `j + 1` calls are made), and it always terminates
with bounded work. -/
theorem c6_amended_batches (step : ℕ → Bool) (j : ℕ) (hj : j ≤ 10)
    (hbefore : ∀ i, i < j → step i = true) (hconv : step j = false) :
    minimizeCalls step ≤ 11 ∧ minimizeCalls step = j + 1 ∧ maxItsPerCall = 4 := by
  refine ⟨minimizeLoop_le step 0 10, ?_, rfl⟩
  apply minimizeLoop_conv step j 0 10 hj
  · intro i hi
    have := hbefore i hi
    simpa using this
  · simpa using hconv

/-- Witness for C6 amended: when the fourth `Minimize` call (index 3)
is the first to report convergence, exactly 4 calls are made. -/
theorem c6_witness :
    minimizeCalls stepW ≤ 11 ∧ minimizeCalls stepW = 4 ∧ maxItsPerCall = 4 :=
  c6_amended_batches stepW 3 (by decide)
    (by
      intro i hi
      simp [stepW]
      omega)
    (by decide)

/-- C7 (code bug): at the correspondence `[(2,0),(3,1)]` (reference
atoms 2,3 matched to ligand atoms 0,1), `_minimize` adds its
`UFFAddPositionConstraint(atidx, 0, 200)` restraints at atoms 2 and 3
— the reference atom indices, the first components of the mapping —
and not at the matched ligand atom indices 0 and 1 that `_embed`
uses from the same mapping. -/
theorem c7_restrains_reference_indices :
    restrainedAtomIndices [(2, 0), (3, 1)] = [2, 3] ∧
    matchedLigandIndices [(2, 0), (3, 1)] = [0, 1] ∧
    restrainedAtomIndices [(2, 0), (3, 1)] ≠ matchedLigandIndices [(2, 0), (3, 1)] ∧
    minimizeConstraints [(2, 0), (3, 1)] = [⟨2, 0, 200⟩, ⟨3, 0, 200⟩] := by
  exact ⟨rfl, rfl, by decide, rfl⟩

/-- C8: `_embed` never mutates the caller-supplied ligand object — it
deep-copies the ligand and lets `EmbedMolecule` and `_alignToRef`
mutate only the fresh copy, so after the call the caller's molecule
(topology and conformer coordinates) is unchanged and the returned
object is distinct from it. -/
theorem c8_template_not_mutated (EmbedMoleculeF : Mol → List (ℕ × Point) → Int → Mol)
    (alignF : Mol → Mol) (g : Generator) (h : Heap) (lig : ℕ) (seed : Int)
    (hlig : lig < h.next) :
    (embedHeapOp EmbedMoleculeF alignF g h lig seed).1.mem lig = h.mem lig ∧
    (embedHeapOp EmbedMoleculeF alignF g h lig seed).2 ≠ lig := by
  have hne : lig ≠ h.next := Nat.ne_of_lt hlig
  constructor
  · unfold embedHeapOp deepcopyAlloc mutateAt
    simp [hne]
  · unfold embedHeapOp deepcopyAlloc
    simpa using (Nat.ne_of_lt hlig).symm

/-- Witness for C8 on a concrete one-object heap. -/
theorem c8_witness :
    (0 : ℕ) < heapW.next ∧
    ((embedHeapOp (fun m _ _ => m) (fun m => m) genW heapW 0 (-1)).1.mem 0 = heapW.mem 0 ∧
      (embedHeapOp (fun m _ _ => m) (fun m => m) genW heapW 0 (-1)).2 ≠ 0) :=
  ⟨by decide, c8_template_not_mutated (fun m _ _ => m) (fun m => m) genW heapW 0 (-1)
    (by decide)⟩

/-- C9: the Pose Aligner is idempotent — aligning an already-aligned
conformer a second time with the same correspondence leaves its
coordinates exactly unchanged (hence changes them by less than any
positive epsilon) — and alignment only touches the conformer's
coordinates, never the molecule's topology.  Proved for every
alignment routine satisfying the spec's contract (`RigidAlignModel`):
a deterministic least-squares fit over a composable family of rigid
transforms containing the identity, whose minimizer's result is
unique. -/
theorem c9_align_idempotent (G : Type) (M : RigidAlignModel G) (m : Mol) :
    alignToRefM M (alignToRefM M m) = alignToRefM M m ∧
    (alignToRefM M m).topo = m.topo := by
  refine ⟨?_, rfl⟩
  have key : ∀ x : List Point,
      M.act (M.opt (M.act (M.opt x) x)) (M.act (M.opt x) x) = M.act (M.opt x) x := by
    intro x
    set y := M.act (M.opt x) x with hy
    have h1 : M.cost (M.act (M.opt y) y) ≤ M.cost y := by
      have h := M.opt_min y M.e
      rwa [M.act_e] at h
    have h2 : M.cost y ≤ M.cost (M.act (M.opt y) y) := by
      have hcomp : M.act (M.opt y) y = M.act (M.comp (M.opt y) (M.opt x)) x := by
        rw [M.act_comp]
      rw [hcomp]
      exact M.opt_min x (M.comp (M.opt y) (M.opt x))
    have heq : M.cost (M.act M.e y) = M.cost (M.act (M.opt y) y) := by
      rw [M.act_e]
      exact le_antisymm h2 h1
    have hu := M.opt_unique y M.e heq
    rw [M.act_e] at hu
    exact hu.symm
  show Mol.mk (alignToRefM M m).topo
      (M.act (M.opt (alignToRefM M m).coords) (alignToRefM M m).coords) = alignToRefM M m
  rw [show (alignToRefM M m).coords = M.act (M.opt m.coords) m.coords from rfl,
    show (alignToRefM M m).topo = m.topo from rfl, key m.coords]
  rfl

/-- Witness for C9, instantiating the contract with the concrete
translation model `TransModel` and a concrete molecule. -/
theorem c9_witness :
    alignToRefM TransModel (alignToRefM TransModel molW) = alignToRefM TransModel molW ∧
    (alignToRefM TransModel molW).topo = molW.topo :=
  c9_align_idempotent ℚ TransModel molW

/-- C10: `MolFromInput` raises `SystemExit` when the input path is not
an existing file; raises `TypeError` when the file has a (non-empty)
extension that is not one of mol, mol2, pdb, sdf; and when the
extension is recognized and the underlying parser yields no molecule,
it returns `None` without raising. -/
theorem c10_molfrominput_outcomes (P : Readers) (path ext0 extU extR : String)
    (r : String → POut)
    (h1 : extU ≠ "") (h2 : (FILE_PARSERS P).lookup extU = none)
    (h3 : (FILE_PARSERS P).lookup extR = some r) (h4 : r path = POut.ok none) :
    MolFromInput P false ext0 path = MFI.systemExit ∧
    MolFromInput P true extU path = MFI.typeError ∧
    MolFromInput P true extR path = MFI.ret none := by
  refine ⟨rfl, ?_, ?_⟩
  · unfold MolFromInput
    simp [h1, h2]
  · have hR : extR ≠ "" := by
      intro he
      rw [he] at h3
      have hnone : (FILE_PARSERS P).lookup "" = none := rfl
      rw [hnone] at h3
      exact absurd h3 (by simp)
    unfold MolFromInput
    simp [hR, h3, h4]

/-- Witness for C10 with readers that return `None`: a missing file
exits, an unrecognized extension raises `TypeError`, and a recognized
extension whose parser yields `None` returns `None`. -/
theorem c10_witness :
    ("xyz" : String) ≠ "" ∧
    (FILE_PARSERS readersW).lookup "xyz" = none ∧
    (FILE_PARSERS readersW).lookup "mol" = some readersW.MolFromMolFile ∧
    readersW.MolFromMolFile "in" = POut.ok none ∧
    (MolFromInput readersW false "pdb" "in" = MFI.systemExit ∧
      MolFromInput readersW true "xyz" "in" = MFI.typeError ∧
      MolFromInput readersW true "mol" "in" = MFI.ret none) :=
  ⟨by decide, rfl, rfl, rfl,
    c10_molfrominput_outcomes readersW "in" "pdb" "xyz" "mol" readersW.MolFromMolFile
      (by decide) rfl rfl rfl⟩

end SSBind
